import Mathlib

/-! Shallow embedding of the performance-series aggregation pipeline of
src/lib/api.ts: share-price history aggregation with downsampling, APR
snapshot selection and calculation, NAV aggregation, the numeric parsing
boundary, and the Merkl claimable-amount computation. JavaScript number
arithmetic inside the pipeline is modelled with exact rationals; the lossy
decimal-string parsing boundary (parseFloat and parseInt) is modelled
separately by roundToDouble and jsParseNumber. JS Map objects are modelled
as insertion-ordered association lists. -/

namespace Kuru

/-- A raw share-price observation (SharePriceHistoryPoint of api.ts) after
its numeric fields are read: timestamp in unix seconds, tvl in raw quote
units (6 implied decimals), sharePriceE18 the price scaled by 10 ^ 18. -/
structure Obs where
  timestamp : Nat
  tvl : ℚ
  sharePriceE18 : ℚ
  deriving DecidableEq

/-- An APR snapshot row (AprSnapshot of api.ts). -/
structure Snap where
  timestamp : Nat
  sharePriceE18 : ℚ
  deriving DecidableEq

/-- A normalized chart point (NormalizedSharePricePoint of api.ts). -/
structure Point where
  timestamp : Nat
  sharePrice : ℚ
  tvl : ℚ
  deriving DecidableEq

/-- A selected APR snapshot: timestamp with scaled-down price. -/
structure SnapPoint where
  timestamp : Nat
  sharePrice : ℚ
  deriving DecidableEq

/-- AprData of api.ts: the two selected snapshots and the APR. -/
structure AprDataModel where
  latest : Option SnapPoint
  historical : Option SnapPoint
  aprPercent : Option ℚ
  deriving DecidableEq

/-- NavData of api.ts. -/
structure NavData where
  timestamp : Nat
  totalTvl : ℚ
  averageSharePrice : ℚ
  deriving DecidableEq

/-- Lookup in an association list, modelling JS Map.get. -/
def alookup (k : Nat) : List (Nat × β) → Option β
  | [] => none
  | (j, v) :: m => if j = k then some v else alookup k m

/-- Update-or-append, modelling the get-then-mutate-or-set pattern on a JS
Map: an existing key keeps its position and its value is updated by f, a
new key is appended at the end (JS Map preserves insertion order). -/
def insertWith (k : Nat) (f : β → β) (v : β) : List (Nat × β) → List (Nat × β)
  | [] => [(k, v)]
  | (j, w) :: m => if j = k then (j, f w) :: m else (j, w) :: insertWith k f v m

/-- Fold a row list into a JS-Map-style association list: each row either
initialises its key or updates the accumulated value at its key. -/
def upsertAll (key : α → Nat) (start : α → β) (upd : α → β → β)
    (l : List α) (m : List (Nat × β)) : List (Nat × β) :=
  l.foldl (fun acc a => insertWith (key a) (upd a) (start a) acc) m

/-- Ascending sort of the keys of an association list. Iterating the sorted
keys through alookup models sorting the entries of a JS Map with pairwise
distinct keys by ascending key. -/
def sortedKeysAsc (m : List (Nat × β)) : List Nat :=
  (m.map Prod.fst).insertionSort fun a b => a ≤ b

/-- Descending sort of the keys of an association list. -/
def sortedKeysDesc (m : List (Nat × β)) : List Nat :=
  (m.map Prod.fst).insertionSort fun a b => b ≤ a

/-- Step 1 of fetchSharePriceHistory: keep rows with a positive price. -/
def validObs (pts : List Obs) : List Obs :=
  pts.filter fun p => decide (0 < p.sharePriceE18)

/-- Per-timestamp accumulator of step 2 of fetchSharePriceHistory. -/
structure GroupAgg where
  tvlSum : ℚ
  sharePriceSum : ℚ
  count : Nat
  deriving DecidableEq

/-- The fresh accumulator written for a first row at a timestamp. -/
def groupStart (p : Obs) : GroupAgg :=
  { tvlSum := p.tvl / 10 ^ 6, sharePriceSum := p.sharePriceE18 / 10 ^ 18, count := 1 }

/-- The in-place accumulator update for a further row at a timestamp. -/
def groupUpd (p : Obs) (a : GroupAgg) : GroupAgg :=
  { tvlSum := a.tvlSum + p.tvl / 10 ^ 6,
    sharePriceSum := a.sharePriceSum + p.sharePriceE18 / 10 ^ 18,
    count := a.count + 1 }

/-- Step 2 of fetchSharePriceHistory: group valid rows by exact timestamp,
summing scaled-down tvl and share price and counting contributors. -/
def groupedByTimestamp (pts : List Obs) : List (Nat × GroupAgg) :=
  upsertAll (fun p => p.timestamp) groupStart groupUpd (validObs pts) []

/-- TARGET_CHART_POINTS of api.ts. -/
def TARGET_CHART_POINTS : Nat := 200

/-- The grouped points of fetchSharePriceHistory, one per distinct valid
timestamp, sorted ascending: sharePrice is the mean, tvl the sum. -/
def aggregatedOf (pts : List Obs) : List Point :=
  (sortedKeysAsc (groupedByTimestamp pts)).filterMap fun t =>
    (alookup t (groupedByTimestamp pts)).map fun a =>
      { timestamp := t, sharePrice := a.sharePriceSum / a.count, tvl := a.tvlSum }

/-- Per-bucket accumulator of step 3 of fetchSharePriceHistory. -/
structure BucketAgg where
  sharePriceSum : ℚ
  tvlSum : ℚ
  count : Nat
  deriving DecidableEq

/-- The bucket index of a point: floor of the offset from the data start
divided by the bucket size, clamped to the last bucket index. -/
def bucketIdx (dataStart bucketSize : Nat) (p : Point) : Nat :=
  min ((p.timestamp - dataStart) / bucketSize) (TARGET_CHART_POINTS - 1)

/-- The fresh bucket accumulator for a first point in a bucket. -/
def bucketStart (p : Point) : BucketAgg :=
  { sharePriceSum := p.sharePrice, tvlSum := p.tvl, count := 1 }

/-- The in-place bucket accumulator update for a further point. -/
def bucketUpd (p : Point) (a : BucketAgg) : BucketAgg :=
  { sharePriceSum := a.sharePriceSum + p.sharePrice,
    tvlSum := a.tvlSum + p.tvl, count := a.count + 1 }

/-- The bucket map of step 3 of fetchSharePriceHistory. -/
def bucketsOf (dataStart bucketSize : Nat) (aggd : List Point) : List (Nat × BucketAgg) :=
  upsertAll (bucketIdx dataStart bucketSize) bucketStart bucketUpd aggd []

/-- The timestamp of the first grouped point (the source reads the entry at
index 0; only evaluated on a nonempty list). -/
def dataStartOf (aggd : List Point) : Nat :=
  ((aggd.head?).map fun p => p.timestamp).getD 0

/-- The timestamp of the last grouped point (the source reads the entry at
index length - 1; only evaluated on a nonempty list). -/
def dataEndOf (aggd : List Point) : Nat :=
  ((aggd.getLast?).map fun p => p.timestamp).getD 0

/-- The downsampling step of fetchSharePriceHistory: the sorted bucket map
rendered as representative points, each at the midpoint of its bucket. -/
def downsampled (dataStart bucketSize : Nat) (aggd : List Point) : List Point :=
  (sortedKeysAsc (bucketsOf dataStart bucketSize aggd)).filterMap fun i =>
    (alookup i (bucketsOf dataStart bucketSize aggd)).map fun agg =>
      { timestamp := dataStart + i * bucketSize + bucketSize / 2,
        sharePrice := agg.sharePriceSum / agg.count,
        tvl := agg.tvlSum / agg.count }

/-- fetchSharePriceHistory of api.ts, the pure computation after the fetch:
filter, group by exact timestamp, sort ascending, and if more than
TARGET_CHART_POINTS grouped points remain, downsample them into equal-width
buckets over the actual data span (last minus first grouped timestamp).
Math.ceil of the exact quotient of the Nats a and b is (a + (b - 1)) / b.
The source returns [] when the grouping map is empty, which is exactly the
case of an empty grouped list. -/
def fetchSharePriceHistoryPure (pts : List Obs) : List Point :=
  let aggd := aggregatedOf pts
  if aggd.length = 0 then []
  else if aggd.length ≤ TARGET_CHART_POINTS then aggd
  else
    let dataStart := dataStartOf aggd
    let dataEnd := dataEndOf aggd
    let dataRange := dataEnd - dataStart
    if dataRange ≤ 0 then aggd
    else
      let bucketSize := (dataRange + (TARGET_CHART_POINTS - 1)) / TARGET_CHART_POINTS
      downsampled dataStart bucketSize aggd

/-- The valid-snapshot filter of averageAtMostRecentTimestamp. -/
def validSnaps (points : List Snap) : List Snap :=
  points.filter fun p => decide (0 < p.sharePriceE18)

/-- The fresh one-element price list for a first snapshot at a timestamp. -/
def priceStart (p : Snap) : List ℚ :=
  [p.sharePriceE18 / 10 ^ 18]

/-- Appending a further scaled-down price to the list at a timestamp. -/
def priceUpd (p : Snap) (arr : List ℚ) : List ℚ :=
  arr ++ [p.sharePriceE18 / 10 ^ 18]

/-- The timestamp-keyed price-list map of averageAtMostRecentTimestamp. -/
def snapGroups (points : List Snap) : List (Nat × List ℚ) :=
  upsertAll (fun p => p.timestamp) priceStart priceUpd (validSnaps points) []

/-- averageAtMostRecentTimestamp of api.ts: group valid snapshots by exact
timestamp keeping each full price list; among the five most recent distinct
timestamps pick the one with the most contributing readings (the comparison
is strict, so on a tie the earlier-seen, i.e. more recent, timestamp wins);
return it with the mean of its prices. The source loop runs i from 1 to
min(5, length) - 1 over the descending timestamp list, which visits exactly
the elements of rest.take 4. -/
def averageAtMostRecentTimestamp (points : List Snap) : Option SnapPoint :=
  let validPoints := validSnaps points
  if validPoints.length = 0 then none
  else
    let groups := snapGroups points
    match sortedKeysDesc groups with
    | [] => none
    | t0 :: rest =>
      let best := (rest.take 4).foldl
        (fun b t =>
          let c := ((alookup t groups).getD []).length
          if b.2 < c then (t, c) else b)
        (t0, ((alookup t0 groups).getD []).length)
      let prices := (alookup best.1 groups).getD []
      some { timestamp := best.1,
             sharePrice := prices.foldl (fun s p => s + p) 0 / prices.length }

/-- The APR computation block, written identically in fetchAprData and
fetchAprDataForVault: needs a positive historical price and a positive
elapsed time, otherwise stays null. -/
def aprCompute (latest historical : Option SnapPoint) : Option ℚ :=
  match latest, historical with
  | some l, some h =>
    if 0 < h.sharePrice then
      if 0 < (((l.timestamp : ℤ) - (h.timestamp : ℤ) : ℤ) : ℚ)
          / ((365.25 : ℚ) * 24 * 60 * 60) then
        some ((l.sharePrice / h.sharePrice - 1)
          / ((((l.timestamp : ℤ) - (h.timestamp : ℤ) : ℤ) : ℚ)
            / ((365.25 : ℚ) * 24 * 60 * 60)) * 100)
      else none
    else none
  | _, _ => none

/-- The historical selection of fetchAprData: the historical window first,
falling back to the earliest row set (the ?? operator of the source). -/
def factoryHistoricalSel (historical earliest : List Snap) : Option SnapPoint :=
  match averageAtMostRecentTimestamp historical with
  | some v => some v
  | none => averageAtMostRecentTimestamp earliest

/-- fetchAprData of api.ts, the pure part after the fetch. -/
def fetchAprDataPure (latest historical earliest : List Snap) : AprDataModel :=
  let l := averageAtMostRecentTimestamp latest
  let h := factoryHistoricalSel historical earliest
  { latest := l, historical := h, aprPercent := aprCompute l h }

/-- toPoint of fetchAprDataForVault: the first row of a row set, rejected
when the set is empty or when the price is exactly zero. -/
def toPoint (rows : List Snap) : Option SnapPoint :=
  match rows with
  | [] => none
  | row :: _ =>
    if row.sharePriceE18 = 0 then none
    else some { timestamp := row.timestamp, sharePrice := row.sharePriceE18 / 10 ^ 18 }

/-- The historical selection of fetchAprDataForVault. -/
def vaultHistoricalSel (historical earliest : List Snap) : Option SnapPoint :=
  match toPoint historical with
  | some v => some v
  | none => toPoint earliest

/-- fetchAprDataForVault of api.ts, the pure part after the fetch. -/
def fetchAprDataForVaultPure (latest historical earliest : List Snap) : AprDataModel :=
  let l := toPoint latest
  let h := vaultHistoricalSel historical earliest
  { latest := l, historical := h, aprPercent := aprCompute l h }

/-- Math.max over the timestamps of a row list (fetchNav only evaluates it
on a nonempty list). -/
def maxTs (rows : List Obs) : Nat :=
  rows.foldl (fun m p => max m p.timestamp) 0

/-- fetchNav of api.ts, the pure part after the fetch: the latest timestamp
over the whole feed, then sum of tvl and mean of sharePrice over the rows
with a positive price exactly at that timestamp. -/
def fetchNavPure (rows : List Obs) : Option NavData :=
  if rows.length = 0 then none
  else
    let latestTimestamp := maxTs rows
    let latestPoints := rows.filter fun p =>
      decide (p.timestamp = latestTimestamp ∧ 0 < p.sharePriceE18)
    if latestPoints.length = 0 then none
    else
      some { timestamp := latestTimestamp,
             totalTvl := latestPoints.foldl (fun s p => s + p.tvl / 10 ^ 6) 0,
             averageSharePrice :=
               latestPoints.foldl (fun s p => s + p.sharePriceE18 / 10 ^ 18) 0
                 / latestPoints.length }

/-- The exact Nat denoted by a big-endian decimal digit list. -/
def decValue (ds : List Nat) : Nat :=
  ds.foldl (fun acc d => 10 * acc + d) 0

/-- Round a nonnegative integer to the nearest IEEE-754 double value
(53-bit significand, ties to even): the value JavaScript parseFloat and
parseInt produce on an integer decimal digit string. -/
def roundToDouble (n : Nat) : Nat :=
  let e := n.size - 53
  let q := n / 2 ^ e
  let r := n % 2 ^ e
  if 2 ^ e < 2 * r ∨ (2 * r = 2 ^ e ∧ q % 2 = 1) then (q + 1) * 2 ^ e else q * 2 ^ e

/-- JavaScript number parsing of an integer decimal digit string, as api.ts
applies to timestamp, tvl and sharePriceE18 (parseInt and parseFloat). -/
def jsParseNumber (ds : List Nat) : Nat :=
  roundToDouble (decValue ds)

/-- Big-endian decimal digits of a Nat, as BigInt.toString renders them. -/
def natDecDigits (n : Nat) : List Nat :=
  (Nat.digits 10 n).reverse

/-- The integer denoted by a sign flag (true means negative) and a
big-endian decimal digit list. -/
def signedValue : Bool × List Nat → ℤ
  | (s, ds) => if s then -(decValue ds : ℤ) else (decValue ds : ℤ)

/-- claimableAmount of fetchMerklRewards: BigInt(amount) - BigInt(claimed),
rendered back to a decimal string (sign flag plus digits). -/
def claimableAmountOf (amount claimed : List Nat) : Bool × List Nat :=
  let d : ℤ := (decValue amount : ℤ) - (decValue claimed : ℤ)
  if d < 0 then (true, natDecDigits d.natAbs) else (false, natDecDigits d.toNat)

/-- The distinct timestamps carrying at least one valid observation. -/
def distinctValidTimestamps (pts : List Obs) : List Nat :=
  ((validObs pts).map fun p => p.timestamp).dedup

/-- The valid observations sharing one exact timestamp. -/
def validAt (pts : List Obs) (t : Nat) : List Obs :=
  (validObs pts).filter fun p => decide (p.timestamp = t)

instance : IsTotal Nat fun a b => b ≤ a := ⟨fun a b => Nat.le_total b a⟩

instance : IsTrans Nat fun a b => b ≤ a := ⟨fun _ _ _ h1 h2 => Nat.le_trans h2 h1⟩

instance : IsAntisymm Nat fun a b => b ≤ a := ⟨fun _ _ h1 h2 => Nat.le_antisymm h2 h1⟩

/-- The most recent up-to-5 distinct valid timestamps, newest first: the
candidate set examined by averageAtMostRecentTimestamp. -/
def recentTimestampWindow (points : List Snap) : List Nat :=
  (sortedKeysDesc (snapGroups points)).take 5

/-- The number of valid readings contributing at one exact timestamp. -/
def vaultCount (points : List Snap) (t : Nat) : Nat :=
  ((validSnaps points).filter fun p => decide (p.timestamp = t)).length

/-- The arithmetic mean of the scaled-down prices at one exact timestamp. -/
def meanPriceAt (points : List Snap) (t : Nat) : ℚ :=
  (((validSnaps points).filter fun p => decide (p.timestamp = t)).map
    fun p => p.sharePriceE18 / 10 ^ 18).sum / (vaultCount points t : ℚ)

/-- The number of readings recorded in the grouping map at a timestamp
(zero when absent), as the source reads groups.get(ts).length. -/
def cntL (points : List Snap) (t : Nat) : Nat :=
  ((alookup t (snapGroups points)).getD []).length

/-- The selection loop of averageAtMostRecentTimestamp: starting from the
most recent timestamp, scan the next up-to-4 and keep the first maximal
reading count. -/
def bestOf (points : List Snap) (t0 : Nat) (rest : List Nat) : Nat × Nat :=
  (rest.take 4).foldl
    (fun b t => if b.2 < cntL points t then (t, cntL points t) else b)
    (t0, cntL points t0)

/-- A concrete feed with five distinct timestamps, newest first, carrying
3, 5, 2, 5 and 1 valid readings respectively (all raw prices 10 ^ 18). -/
def fiveTimestampFeed : List Snap :=
  [⟨50, 1000000000000000000⟩, ⟨50, 1000000000000000000⟩, ⟨50, 1000000000000000000⟩,
   ⟨40, 1000000000000000000⟩, ⟨40, 1000000000000000000⟩, ⟨40, 1000000000000000000⟩,
   ⟨40, 1000000000000000000⟩, ⟨40, 1000000000000000000⟩,
   ⟨30, 1000000000000000000⟩, ⟨30, 1000000000000000000⟩,
   ⟨20, 1000000000000000000⟩, ⟨20, 1000000000000000000⟩, ⟨20, 1000000000000000000⟩,
   ⟨20, 1000000000000000000⟩, ⟨20, 1000000000000000000⟩,
   ⟨10, 1000000000000000000⟩]

/-- The grouped points falling into bucket i under the specification
formula: floor((timestamp - start) / width) clamped to the last index. -/
def claimMembers (aggd : List Point) (start w i : Nat) : List Point :=
  aggd.filter fun p => decide (min ((p.timestamp - start) / w) 199 = i)

/-- Downsampling exactly as the specification words it: divide the
observed span into 200 equal-width buckets, assign each grouped point to
bucket floor((timestamp - start) / width) clamped to the last index,
average sharePrice and tvl within each non-empty bucket, and emit one
representative point per non-empty bucket at bucketStart + width / 2,
ordered ascending by bucket index. -/
def claimDownsample (aggd : List Point) (start w : Nat) : List Point :=
  (List.range 200).filterMap fun i =>
    if (claimMembers aggd start w i).length = 0 then none
    else some ⟨start + i * w + w / 2,
      ((claimMembers aggd start w i).map fun p => p.sharePrice).sum
        / ((claimMembers aggd start w i).length : ℚ),
      ((claimMembers aggd start w i).map fun p => p.tvl).sum
        / ((claimMembers aggd start w i).length : ℚ)⟩

/-- A concrete feed of 201 valid observations at 201 distinct consecutive
timestamps, forcing the downsampling branch. -/
def rangeFeed : List Obs :=
  (List.range 201).map fun i => ⟨i, 0, 1⟩

theorem alookup_insertWith (k j : Nat) (f : β → β) (v : β) (m : List (Nat × β)) :
    alookup j (insertWith k f v m) =
      if k = j then some ((alookup j m).elim v f) else alookup j m := by
  induction m with
  | nil => by_cases h : k = j <;> simp [insertWith, alookup, h]
  | cons hd tl ih =>
    obtain ⟨i, w⟩ := hd
    by_cases hik : i = k
    · subst hik
      by_cases hij : i = j <;> simp [insertWith, alookup, hij]
    · by_cases hij : i = j
      · have hkj : ¬k = j := fun h => hik (hij.trans h.symm)
        have hjk : ¬j = k := fun h => hik (hij.trans h)
        simp [insertWith, alookup, hik, hij, hkj, hjk]
      · simp [insertWith, alookup, hik, hij, ih]

theorem alookup_eq_none_iff (k : Nat) (m : List (Nat × β)) :
    alookup k m = none ↔ k ∉ m.map Prod.fst := by
  induction m with
  | nil => simp [alookup]
  | cons hd tl ih =>
    obtain ⟨i, w⟩ := hd
    by_cases h : i = k
    · subst h; simp [alookup]
    · have h2 : ¬k = i := fun hh => h hh.symm
      simp [alookup, h, h2, ih]

theorem alookup_isSome_iff (k : Nat) (m : List (Nat × β)) :
    (alookup k m).isSome ↔ k ∈ m.map Prod.fst := by
  induction m with
  | nil => simp [alookup]
  | cons hd tl ih =>
    obtain ⟨i, w⟩ := hd
    by_cases h : i = k
    · subst h; simp [alookup]
    · have h2 : ¬k = i := fun hh => h hh.symm
      simp [alookup, h, h2, ih]

theorem keys_insertWith (k : Nat) (f : β → β) (v : β) (m : List (Nat × β)) :
    (insertWith k f v m).map Prod.fst =
      if k ∈ m.map Prod.fst then m.map Prod.fst else m.map Prod.fst ++ [k] := by
  induction m with
  | nil => simp [insertWith]
  | cons hd tl ih =>
    obtain ⟨i, w⟩ := hd
    by_cases hik : i = k
    · subst hik; simp [insertWith]
    · have : ¬k = i := fun h => hik h.symm
      by_cases hk : k ∈ tl.map Prod.fst <;> simp [insertWith, hik, this, hk, ih]

theorem mem_keys_insertWith (j k : Nat) (f : β → β) (v : β) (m : List (Nat × β)) :
    j ∈ (insertWith k f v m).map Prod.fst ↔ j ∈ m.map Prod.fst ∨ j = k := by
  rw [keys_insertWith]
  split
  · rename_i hmem
    constructor
    · exact fun h => Or.inl h
    · rintro (h | rfl)
      · exact h
      · exact hmem
  · simp

theorem nodup_keys_insertWith (k : Nat) (f : β → β) (v : β) (m : List (Nat × β))
    (h : (m.map Prod.fst).Nodup) :
    ((insertWith k f v m).map Prod.fst).Nodup := by
  rw [keys_insertWith]
  split
  · exact h
  · rename_i hk
    simp [List.nodup_append, h, hk]

theorem upsertAll_cons (key : α → Nat) (start : α → β) (upd : α → β → β)
    (a : α) (l : List α) (m : List (Nat × β)) :
    upsertAll key start upd (a :: l) m =
      upsertAll key start upd l (insertWith (key a) (upd a) (start a) m) := rfl

theorem alookup_upsertAll (key : α → Nat) (start : α → β) (upd : α → β → β)
    (l : List α) (m : List (Nat × β)) (j : Nat) :
    alookup j (upsertAll key start upd l m) =
      (l.filter fun a => decide (key a = j)).foldl
        (fun o a => some (o.elim (start a) (upd a))) (alookup j m) := by
  induction l generalizing m with
  | nil => rfl
  | cons a l ih =>
    rw [upsertAll_cons, ih, alookup_insertWith]
    by_cases h : key a = j
    · simp [h, List.filter_cons]
    · simp [h, List.filter_cons]

theorem foldl_someElim (start : α → β) (upd : α → β → β) (xs : List α) :
    ∀ b : β,
      xs.foldl (fun o a => some (Option.elim o (start a) (upd a))) (some b) =
        some (xs.foldl (fun c a => upd a c) b) := by
  induction xs with
  | nil => intro b; rfl
  | cons x xs ih =>
    intro b
    rw [List.foldl_cons, List.foldl_cons]
    exact ih (upd x b)

theorem alookup_upsertAll_nil (key : α → Nat) (start : α → β) (upd : α → β → β)
    (l : List α) (j : Nat) :
    alookup j (upsertAll key start upd l []) =
      match l.filter (fun a => decide (key a = j)) with
      | [] => none
      | a :: as => some (as.foldl (fun c x => upd x c) (start a)) := by
  rw [alookup_upsertAll]
  cases h : l.filter (fun a => decide (key a = j)) with
  | nil => simp [alookup]
  | cons a as => simp [alookup, foldl_someElim]

theorem mem_keys_upsertAll (key : α → Nat) (start : α → β) (upd : α → β → β)
    (l : List α) (j : Nat) :
    ∀ m : List (Nat × β),
      (j ∈ (upsertAll key start upd l m).map Prod.fst ↔
        j ∈ m.map Prod.fst ∨ j ∈ l.map key) := by
  induction l with
  | nil => intro m; simp [upsertAll]
  | cons a l ih =>
    intro m
    rw [upsertAll_cons, ih, mem_keys_insertWith]
    simp
    tauto

theorem nodup_keys_upsertAll (key : α → Nat) (start : α → β) (upd : α → β → β)
    (l : List α) :
    ∀ m : List (Nat × β), (m.map Prod.fst).Nodup →
      ((upsertAll key start upd l m).map Prod.fst).Nodup := by
  induction l with
  | nil => intro m h; exact h
  | cons a l ih =>
    intro m h
    exact ih _ (nodup_keys_insertWith _ _ _ _ h)

theorem sortedKeysAsc_sorted (m : List (Nat × β)) :
    (sortedKeysAsc m).Sorted fun a b => a ≤ b :=
  List.sorted_insertionSort _ _

theorem sortedKeysAsc_perm (m : List (Nat × β)) :
    List.Perm (sortedKeysAsc m) (m.map Prod.fst) :=
  List.perm_insertionSort _ _

theorem sortedKeysDesc_sorted (m : List (Nat × β)) :
    (sortedKeysDesc m).Sorted fun a b => b ≤ a :=
  List.sorted_insertionSort _ _

theorem sortedKeysDesc_perm (m : List (Nat × β)) :
    List.Perm (sortedKeysDesc m) (m.map Prod.fst) :=
  List.perm_insertionSort _ _

theorem pairwise_lt_of_sorted_le_nodup {l : List Nat}
    (hs : l.Sorted fun a b => a ≤ b) (hn : l.Nodup) :
    l.Pairwise fun a b => a < b :=
  (hs.and hn).imp fun h => Nat.lt_of_le_of_ne h.1 h.2

theorem pairwise_gt_of_sorted_ge_nodup {l : List Nat}
    (hs : l.Sorted fun a b => b ≤ a) (hn : l.Nodup) :
    l.Pairwise fun a b => b < a :=
  (hs.and hn).imp fun h => Nat.lt_of_le_of_ne h.1 fun hh => h.2 hh.symm

theorem groupAgg_foldl (xs : List Obs) :
    ∀ b : GroupAgg,
      xs.foldl (fun c p => groupUpd p c) b =
        { tvlSum := b.tvlSum + (xs.map fun p => p.tvl / 10 ^ 6).sum,
          sharePriceSum := b.sharePriceSum + (xs.map fun p => p.sharePriceE18 / 10 ^ 18).sum,
          count := b.count + xs.length } := by
  induction xs with
  | nil => intro b; simp
  | cons x xs ih =>
    intro b
    rw [List.foldl_cons, ih]
    simp only [groupUpd, List.map_cons, List.sum_cons, List.length_cons, GroupAgg.mk.injEq]
    refine ⟨by ring, by ring, by omega⟩

theorem alookup_groupedByTimestamp (pts : List Obs) (j : Nat) (a : GroupAgg)
    (h : alookup j (groupedByTimestamp pts) = some a) :
    a.tvlSum = ((validAt pts j).map fun p => p.tvl / 10 ^ 6).sum ∧
    a.sharePriceSum = ((validAt pts j).map fun p => p.sharePriceE18 / 10 ^ 18).sum ∧
    a.count = (validAt pts j).length := by
  rw [groupedByTimestamp, alookup_upsertAll_nil] at h
  simp only [validAt]
  cases hf : (validObs pts).filter (fun p => decide (p.timestamp = j)) with
  | nil => rw [hf] at h; simp at h
  | cons x xs =>
    rw [hf] at h
    simp only [Option.some.injEq] at h
    rw [groupAgg_foldl] at h
    rw [← h]
    simp [groupStart]
    omega

theorem priceList_foldl (xs : List Snap) :
    ∀ b : List ℚ,
      xs.foldl (fun c p => priceUpd p c) b =
        b ++ xs.map fun p => p.sharePriceE18 / 10 ^ 18 := by
  induction xs with
  | nil => intro b; simp
  | cons x xs ih =>
    intro b
    rw [List.foldl_cons, ih]
    simp [priceUpd]

theorem alookup_snapGroups (points : List Snap) (j : Nat) (prices : List ℚ)
    (h : alookup j (snapGroups points) = some prices) :
    prices = ((validSnaps points).filter fun p => decide (p.timestamp = j)).map
      fun p => p.sharePriceE18 / 10 ^ 18 := by
  rw [snapGroups, alookup_upsertAll_nil] at h
  cases hf : (validSnaps points).filter (fun p => decide (p.timestamp = j)) with
  | nil => rw [hf] at h; simp at h
  | cons x xs =>
    rw [hf] at h
    simp only [Option.some.injEq] at h
    rw [priceList_foldl] at h
    rw [← h]
    simp [priceStart]

theorem bucketAgg_foldl (xs : List Point) :
    ∀ b : BucketAgg,
      xs.foldl (fun c p => bucketUpd p c) b =
        { sharePriceSum := b.sharePriceSum + (xs.map fun p => p.sharePrice).sum,
          tvlSum := b.tvlSum + (xs.map fun p => p.tvl).sum,
          count := b.count + xs.length } := by
  induction xs with
  | nil => intro b; simp
  | cons x xs ih =>
    intro b
    rw [List.foldl_cons, ih]
    simp only [bucketUpd, List.map_cons, List.sum_cons, List.length_cons, BucketAgg.mk.injEq]
    refine ⟨by ring, by ring, by omega⟩

theorem alookup_bucketsOf (dataStart bucketSize : Nat) (aggd : List Point) (i : Nat)
    (agg : BucketAgg) (h : alookup i (bucketsOf dataStart bucketSize aggd) = some agg) :
    agg.sharePriceSum =
      ((aggd.filter fun p => decide (bucketIdx dataStart bucketSize p = i)).map
        fun p => p.sharePrice).sum ∧
    agg.tvlSum =
      ((aggd.filter fun p => decide (bucketIdx dataStart bucketSize p = i)).map
        fun p => p.tvl).sum ∧
    agg.count = (aggd.filter fun p => decide (bucketIdx dataStart bucketSize p = i)).length := by
  rw [bucketsOf, alookup_upsertAll_nil] at h
  cases hf : aggd.filter (fun p => decide (bucketIdx dataStart bucketSize p = i)) with
  | nil => rw [hf] at h; simp at h
  | cons x xs =>
    rw [hf] at h
    simp only [Option.some.injEq] at h
    rw [bucketAgg_foldl] at h
    rw [← h]
    simp [bucketStart]
    omega

theorem length_filterMap_of_isSome {γ δ : Type} (f : γ → Option δ) :
    ∀ l : List γ, (∀ t ∈ l, (f t).isSome) → (l.filterMap f).length = l.length := by
  intro l
  induction l with
  | nil => intro _; rfl
  | cons t l ih =>
    intro h
    obtain ⟨v, hv⟩ := Option.isSome_iff_exists.mp (h t (List.mem_cons_self t l))
    simp [List.filterMap_cons, hv, ih fun u hu => h u (List.mem_cons_of_mem t hu)]

theorem keys_grouped_perm_dedup (pts : List Obs) :
    List.Perm ((groupedByTimestamp pts).map Prod.fst) (distinctValidTimestamps pts) := by
  have h1 : ((groupedByTimestamp pts).map Prod.fst).Nodup := by
    rw [groupedByTimestamp]
    exact nodup_keys_upsertAll _ _ _ _ [] (by simp)
  have h2 : (distinctValidTimestamps pts).Nodup := List.nodup_dedup _
  rw [List.perm_ext_iff_of_nodup h1 h2]
  intro a
  rw [distinctValidTimestamps, List.mem_dedup, groupedByTimestamp]
  rw [mem_keys_upsertAll (fun p : Obs => p.timestamp) groupStart groupUpd (validObs pts) a []]
  simp

theorem length_aggregatedOf (pts : List Obs) :
    (aggregatedOf pts).length = (distinctValidTimestamps pts).length := by
  rw [aggregatedOf]
  rw [length_filterMap_of_isSome]
  · rw [(sortedKeysAsc_perm (groupedByTimestamp pts)).length_eq,
      (keys_grouped_perm_dedup pts).length_eq, distinctValidTimestamps]
  · intro t ht
    have hmem : t ∈ (groupedByTimestamp pts).map Prod.fst :=
      (sortedKeysAsc_perm (groupedByTimestamp pts)).mem_iff.mp ht
    have hsome := (alookup_isSome_iff t (groupedByTimestamp pts)).mpr hmem
    rcases halk : alookup t (groupedByTimestamp pts) with _ | a
    · simp [halk] at hsome
    · rfl

theorem fetchHistory_eq_aggregated_of_le (pts : List Obs)
    (h : (aggregatedOf pts).length ≤ TARGET_CHART_POINTS) :
    fetchSharePriceHistoryPure pts = aggregatedOf pts := by
  rw [fetchSharePriceHistoryPure]
  by_cases h0 : (aggregatedOf pts).length = 0
  · simp [h0]
    exact List.length_eq_zero.mp h0
  · simp [h0, h]

theorem mem_aggregatedOf (pts : List Obs) (q : Point) (hq : q ∈ aggregatedOf pts) :
    ∃ a : GroupAgg, alookup q.timestamp (groupedByTimestamp pts) = some a ∧
      q.sharePrice = a.sharePriceSum / a.count ∧ q.tvl = a.tvlSum := by
  rw [aggregatedOf, List.mem_filterMap] at hq
  obtain ⟨t, _, hf⟩ := hq
  rw [Option.map_eq_some'] at hf
  obtain ⟨a, ha, hpoint⟩ := hf
  refine ⟨a, ?_, by rw [← hpoint], by rw [← hpoint]⟩
  rw [← hpoint]
  exact ha

theorem validObs_idem (pts : List Obs) :
    validObs (pts.filter fun p => decide (0 < p.sharePriceE18)) = validObs pts := by
  simp [validObs, List.filter_filter]

theorem validSnaps_idem (points : List Snap) :
    validSnaps (points.filter fun p => decide (0 < p.sharePriceE18)) = validSnaps points := by
  simp [validSnaps, List.filter_filter]

theorem history_validObs_congr (pts pts2 : List Obs) (h : validObs pts = validObs pts2) :
    fetchSharePriceHistoryPure pts = fetchSharePriceHistoryPure pts2 := by
  have hg : groupedByTimestamp pts = groupedByTimestamp pts2 := by
    rw [groupedByTimestamp, groupedByTimestamp, h]
  have ha : aggregatedOf pts = aggregatedOf pts2 := by
    rw [aggregatedOf, aggregatedOf, hg]
  simp only [fetchSharePriceHistoryPure]
  rw [ha]

theorem aamrt_validSnaps_congr (qs qs2 : List Snap) (h : validSnaps qs = validSnaps qs2) :
    averageAtMostRecentTimestamp qs = averageAtMostRecentTimestamp qs2 := by
  have hg : snapGroups qs = snapGroups qs2 := by
    rw [snapGroups, snapGroups, h]
  simp only [averageAtMostRecentTimestamp]
  rw [h, hg]

/-- C1: whenever at most 200 distinct valid timestamps occur in the input
(so no downsampling happens), every output point of the history aggregator
has tvl equal to the exact sum of the scaled-down tvl values, and
sharePrice equal to the exact arithmetic mean of the scaled-down share
prices, of the valid (positive sharePriceE18) observations sharing its
exact timestamp. -/
theorem claim_C1_grouped_sum_and_mean (pts : List Obs)
    (hcount : (distinctValidTimestamps pts).length ≤ 200)
    (q : Point) (hq : q ∈ fetchSharePriceHistoryPure pts) :
    q.tvl = ((validAt pts q.timestamp).map fun p => p.tvl / 10 ^ 6).sum ∧
    q.sharePrice =
      ((validAt pts q.timestamp).map fun p => p.sharePriceE18 / 10 ^ 18).sum
        / (validAt pts q.timestamp).length := by
  have hlen : (aggregatedOf pts).length ≤ TARGET_CHART_POINTS := by
    rw [length_aggregatedOf]
    simpa [TARGET_CHART_POINTS] using hcount
  rw [fetchHistory_eq_aggregated_of_le pts hlen] at hq
  obtain ⟨a, ha, hsp, htv⟩ := mem_aggregatedOf pts q hq
  obtain ⟨h1, h2, h3⟩ := alookup_groupedByTimestamp pts q.timestamp a ha
  exact ⟨by rw [htv, h1], by rw [hsp, h2, h3]⟩

/-- Witness for C1 at a concrete input: two valid readings share timestamp
10 (raw tvl 2e6 and 4e6, raw prices 2e18 and 4e18) and one invalid
zero-price reading sits at timestamp 20; the output point carries the
summed scaled tvl 6 and the mean scaled price 3. -/
theorem claim_C1_witness :
    (distinctValidTimestamps
      ([⟨10, 2000000, 2000000000000000000⟩, ⟨10, 4000000, 4000000000000000000⟩,
        ⟨20, 1, 0⟩] : List Obs)).length ≤ 200 ∧
    (⟨10, 3, 6⟩ : Point) ∈ fetchSharePriceHistoryPure
      ([⟨10, 2000000, 2000000000000000000⟩, ⟨10, 4000000, 4000000000000000000⟩,
        ⟨20, 1, 0⟩] : List Obs) ∧
    ((⟨10, 3, 6⟩ : Point).tvl =
      ((validAt ([⟨10, 2000000, 2000000000000000000⟩, ⟨10, 4000000, 4000000000000000000⟩,
        ⟨20, 1, 0⟩] : List Obs)
        (⟨10, 3, 6⟩ : Point).timestamp).map fun p => p.tvl / 10 ^ 6).sum ∧
     (⟨10, 3, 6⟩ : Point).sharePrice =
      ((validAt ([⟨10, 2000000, 2000000000000000000⟩, ⟨10, 4000000, 4000000000000000000⟩,
        ⟨20, 1, 0⟩] : List Obs)
        (⟨10, 3, 6⟩ : Point).timestamp).map fun p => p.sharePriceE18 / 10 ^ 18).sum
        / (validAt ([⟨10, 2000000, 2000000000000000000⟩, ⟨10, 4000000, 4000000000000000000⟩,
            ⟨20, 1, 0⟩] : List Obs)
            (⟨10, 3, 6⟩ : Point).timestamp).length) :=
  ⟨by norm_num [distinctValidTimestamps, validObs],
   by norm_num [fetchSharePriceHistoryPure, aggregatedOf, groupedByTimestamp, upsertAll,
     insertWith, alookup, sortedKeysAsc, List.insertionSort, List.orderedInsert, validObs,
     groupStart, groupUpd, TARGET_CHART_POINTS, List.filterMap_cons, List.filterMap_nil],
   claim_C1_grouped_sum_and_mean _
     (by norm_num [distinctValidTimestamps, validObs]) _
     (by norm_num [fetchSharePriceHistoryPure, aggregatedOf, groupedByTimestamp, upsertAll,
       insertWith, alookup, sortedKeysAsc, List.insertionSort, List.orderedInsert, validObs,
       groupStart, groupUpd, TARGET_CHART_POINTS, List.filterMap_cons, List.filterMap_nil])⟩

/-- C2: rows with nonpositive scaled share price contribute to nothing:
both the history aggregator and the APR snapshot selector compute the very
same output on the raw input as on the input with every such row removed,
so invalid rows influence no sum, mean or count. -/
theorem claim_C2_invalid_rows_excluded (pts : List Obs) (qs : List Snap) :
    fetchSharePriceHistoryPure pts =
      fetchSharePriceHistoryPure (pts.filter fun p => decide (0 < p.sharePriceE18)) ∧
    averageAtMostRecentTimestamp qs =
      averageAtMostRecentTimestamp (qs.filter fun p => decide (0 < p.sharePriceE18)) :=
  ⟨history_validObs_congr _ _ (validObs_idem pts).symm,
   aamrt_validSnaps_congr _ _ (validSnaps_idem qs).symm⟩

theorem aprCompute_none_left (h : Option SnapPoint) : aprCompute none h = none := by
  cases h <;> rfl

theorem aprCompute_none_right (l : Option SnapPoint) : aprCompute l none = none := by
  cases l <;> rfl

theorem fetchAprDataPure_aprPercent (l h e : List Snap) :
    (fetchAprDataPure l h e).aprPercent =
      aprCompute (averageAtMostRecentTimestamp l) (factoryHistoricalSel h e) := rfl

theorem fetchAprDataForVaultPure_aprPercent (l h e : List Snap) :
    (fetchAprDataForVaultPure l h e).aprPercent =
      aprCompute (toPoint l) (vaultHistoricalSel h e) := rfl

theorem aamrt_nil : averageAtMostRecentTimestamp ([] : List Snap) = none := rfl

theorem aamrt_eq_none_of_all_zero (lf : List Snap)
    (h : ∀ p ∈ lf, p.sharePriceE18 = 0) :
    averageAtMostRecentTimestamp lf = none := by
  have hv : validSnaps lf = [] :=
    List.filter_eq_nil_iff.mpr fun p hp => by simp [h p hp]
  simp [averageAtMostRecentTimestamp, hv]

theorem toPoint_eq_none_of_all_zero (lv : List Snap)
    (h : ∀ p ∈ lv, p.sharePriceE18 = 0) :
    toPoint lv = none := by
  cases lv with
  | nil => rfl
  | cons p rest => simp [toPoint, h p (List.mem_cons_self p rest)]

/-- C4: with a positive historical price p0 and a strictly later latest
timestamp t1, both the factory-wide and the single-vault APR calculators
return aprPercent = (p1 / p0 - 1) * 100 / ((t1 - t0) / 31557600), the
annualized percentage over a 365.25-day year of 31557600 seconds. -/
theorem claim_C4_apr_formula (lf hf ef lv hv ev : List Snap)
    (t1 t0 : Nat) (p1 p0 : ℚ) (hp0 : 0 < p0) (ht : t0 < t1)
    (h1 : averageAtMostRecentTimestamp lf = some ⟨t1, p1⟩)
    (h2 : factoryHistoricalSel hf ef = some ⟨t0, p0⟩)
    (h3 : toPoint lv = some ⟨t1, p1⟩)
    (h4 : vaultHistoricalSel hv ev = some ⟨t0, p0⟩) :
    (fetchAprDataPure lf hf ef).aprPercent =
      some ((p1 / p0 - 1) * 100 / (((t1 : ℚ) - (t0 : ℚ)) / 31557600)) ∧
    (fetchAprDataForVaultPure lv hv ev).aprPercent =
      some ((p1 / p0 - 1) * 100 / (((t1 : ℚ) - (t0 : ℚ)) / 31557600)) := by
  have key : aprCompute (some ⟨t1, p1⟩) (some ⟨t0, p0⟩) =
      some ((p1 / p0 - 1) * 100 / (((t1 : ℚ) - (t0 : ℚ)) / 31557600)) := by
    have hnum : (0 : ℚ) < (((t1 : ℤ) - (t0 : ℤ) : ℤ) : ℚ) := by
      have : (t0 : ℤ) < (t1 : ℤ) := by exact_mod_cast ht
      exact_mod_cast Int.sub_pos.mpr this
    have hdy : (0 : ℚ) < (((t1 : ℤ) - (t0 : ℤ) : ℤ) : ℚ) / ((365.25 : ℚ) * 24 * 60 * 60) :=
      div_pos hnum (by norm_num)
    simp only [aprCompute]
    rw [if_pos hp0, if_pos hdy]
    congr 1
    have hden : ((365.25 : ℚ) * 24 * 60 * 60) = 31557600 := by norm_num
    rw [hden]
    have hcast : (((t1 : ℤ) - (t0 : ℤ) : ℤ) : ℚ) = (t1 : ℚ) - (t0 : ℚ) := by push_cast; ring
    rw [hcast]
    ring
  exact ⟨by rw [fetchAprDataPure_aprPercent, h1, h2, key],
         by rw [fetchAprDataForVaultPure_aprPercent, h3, h4, key]⟩

/-- Witness for C4 at the concrete input of the claim: latest at
timestamp 1700100000 with scaled price 1.02, historical 30 days earlier at
timestamp 1697508000 with scaled price 1; both calculators yield exactly
487 / 20 = 24.35 percent. -/
theorem claim_C4_witness :
    averageAtMostRecentTimestamp ([⟨1700100000, 1020000000000000000⟩] : List Snap) =
      some ⟨1700100000, 51 / 50⟩ ∧
    factoryHistoricalSel ([⟨1697508000, 1000000000000000000⟩] : List Snap) [] =
      some ⟨1697508000, 1⟩ ∧
    toPoint ([⟨1700100000, 1020000000000000000⟩] : List Snap) =
      some ⟨1700100000, 51 / 50⟩ ∧
    vaultHistoricalSel ([⟨1697508000, 1000000000000000000⟩] : List Snap) [] =
      some ⟨1697508000, 1⟩ ∧
    (fetchAprDataPure [⟨1700100000, 1020000000000000000⟩]
      [⟨1697508000, 1000000000000000000⟩] []).aprPercent = some (487 / 20) ∧
    (fetchAprDataForVaultPure [⟨1700100000, 1020000000000000000⟩]
      [⟨1697508000, 1000000000000000000⟩] []).aprPercent = some (487 / 20) := by
  have e1 : averageAtMostRecentTimestamp ([⟨1700100000, 1020000000000000000⟩] : List Snap) =
      some ⟨1700100000, 51 / 50⟩ := by
    norm_num [averageAtMostRecentTimestamp, validSnaps, snapGroups, upsertAll, insertWith,
      alookup, sortedKeysDesc, List.insertionSort, List.orderedInsert, priceStart, priceUpd]
  have e2 : factoryHistoricalSel ([⟨1697508000, 1000000000000000000⟩] : List Snap) [] =
      some ⟨1697508000, 1⟩ := by
    norm_num [factoryHistoricalSel, averageAtMostRecentTimestamp, validSnaps, snapGroups,
      upsertAll, insertWith, alookup, sortedKeysDesc, List.insertionSort, List.orderedInsert,
      priceStart, priceUpd]
  have e3 : toPoint ([⟨1700100000, 1020000000000000000⟩] : List Snap) =
      some ⟨1700100000, 51 / 50⟩ := by
    norm_num [toPoint]
  have e4 : vaultHistoricalSel ([⟨1697508000, 1000000000000000000⟩] : List Snap) [] =
      some ⟨1697508000, 1⟩ := by
    norm_num [vaultHistoricalSel, toPoint]
  have hform := claim_C4_apr_formula [⟨1700100000, 1020000000000000000⟩]
    [⟨1697508000, 1000000000000000000⟩] [] [⟨1700100000, 1020000000000000000⟩]
    [⟨1697508000, 1000000000000000000⟩] [] 1700100000 1697508000 (51 / 50) 1
    (by norm_num) (by norm_num) e1 e2 e3 e4
  refine ⟨e1, e2, e3, e4, hform.1.trans ?_, hform.2.trans ?_⟩ <;> norm_num

/-- C5: the APR calculators return aprPercent = none, with no division by
zero, when the latest observation list is empty, when all its prices are
zero, when the selected historical price is nonpositive, or when the
latest timestamp does not exceed the historical one. -/
theorem claim_C5_apr_null_cases (hf ef hv ev lf lv : List Snap)
    (l2 h2 l3 h3 : SnapPoint)
    (hlf : ∀ p ∈ lf, p.sharePriceE18 = 0) (hlv : ∀ p ∈ lv, p.sharePriceE18 = 0)
    (hp0 : h2.sharePrice ≤ 0) (hts : l3.timestamp ≤ h3.timestamp) :
    (fetchAprDataPure [] hf ef).aprPercent = none ∧
    (fetchAprDataForVaultPure [] hv ev).aprPercent = none ∧
    (fetchAprDataPure lf hf ef).aprPercent = none ∧
    (fetchAprDataForVaultPure lv hv ev).aprPercent = none ∧
    aprCompute (some l2) (some h2) = none ∧
    aprCompute (some l3) (some h3) = none := by
  refine ⟨?_, ?_, ?_, ?_, ?_, ?_⟩
  · rw [fetchAprDataPure_aprPercent, aamrt_nil, aprCompute_none_left]
  · rw [fetchAprDataForVaultPure_aprPercent]
    rw [show toPoint ([] : List Snap) = none from rfl, aprCompute_none_left]
  · rw [fetchAprDataPure_aprPercent, aamrt_eq_none_of_all_zero lf hlf, aprCompute_none_left]
  · rw [fetchAprDataForVaultPure_aprPercent, toPoint_eq_none_of_all_zero lv hlv,
      aprCompute_none_left]
  · simp only [aprCompute]
    rw [if_neg (not_lt.mpr hp0)]
  · simp only [aprCompute]
    by_cases hp : 0 < h3.sharePrice
    · rw [if_pos hp, if_neg]
      apply not_lt.mpr
      apply div_nonpos_of_nonpos_of_nonneg
      · have hle : (l3.timestamp : ℤ) ≤ (h3.timestamp : ℤ) := by exact_mod_cast hts
        have : ((l3.timestamp : ℤ) - (h3.timestamp : ℤ) : ℤ) ≤ 0 := sub_nonpos.mpr hle
        exact_mod_cast this
      · norm_num
    · rw [if_neg hp]

/-- Witness for C5: concrete degenerate inputs for each null case. -/
theorem claim_C5_witness :
    (∀ p ∈ ([⟨5, 0⟩] : List Snap), p.sharePriceE18 = 0) ∧
    ((⟨5, 0⟩ : SnapPoint).sharePrice ≤ 0) ∧
    ((⟨5, 1⟩ : SnapPoint).timestamp ≤ (⟨9, 1⟩ : SnapPoint).timestamp) ∧
    ((fetchAprDataPure [] [] []).aprPercent = none ∧
     (fetchAprDataForVaultPure [] [] []).aprPercent = none ∧
     (fetchAprDataPure [⟨5, 0⟩] [] []).aprPercent = none ∧
     (fetchAprDataForVaultPure [⟨5, 0⟩] [] []).aprPercent = none ∧
     aprCompute (some ⟨10, 1⟩) (some ⟨5, 0⟩) = none ∧
     aprCompute (some ⟨5, 1⟩) (some ⟨9, 1⟩) = none) :=
  ⟨by norm_num, by norm_num, by norm_num,
   claim_C5_apr_null_cases [] [] [] [] [⟨5, 0⟩] [⟨5, 0⟩] ⟨10, 1⟩ ⟨5, 0⟩ ⟨5, 1⟩ ⟨9, 1⟩
     (by norm_num) (by norm_num) (by norm_num) (by norm_num)⟩

/-- Counterexample to C7: with an empty historical row set and an earliest
row set holding two valid readings at timestamps 10 and 20, the factory
fallback returns the snapshot at timestamp 20 (the most recent timestamp
of the earliest row set), not the earliest qualifying timestamp 10. -/
theorem claim_C7_counterexample :
    (fetchAprDataPure [] []
      ([⟨10, 1000000000000000000⟩, ⟨20, 2000000000000000000⟩] : List Snap)).historical =
      some ⟨20, 2⟩ ∧
    (fetchAprDataPure [] []
      ([⟨10, 1000000000000000000⟩, ⟨20, 2000000000000000000⟩] : List Snap)).historical ≠
      some ⟨10, 1⟩ ∧
    (∀ p ∈ ([⟨10, 1000000000000000000⟩, ⟨20, 2000000000000000000⟩] : List Snap),
      10 ≤ p.timestamp) := by
  have he : (fetchAprDataPure [] []
      ([⟨10, 1000000000000000000⟩, ⟨20, 2000000000000000000⟩] : List Snap)).historical =
      some ⟨20, 2⟩ := by
    norm_num [fetchAprDataPure, factoryHistoricalSel, averageAtMostRecentTimestamp,
      validSnaps, snapGroups, upsertAll, insertWith, alookup, sortedKeysDesc,
      List.insertionSort, List.orderedInsert, priceStart, priceUpd, aamrt_nil]
  refine ⟨he, by rw [he]; simp, by norm_num⟩

/-- C7 amended: when the historical row set yields no snapshot, both
calculators fall back to the earliest row set, but the factory-wide
calculator applies the same most-complete-recent-snapshot selection to
that set (so it picks among the most recent up-to-5 distinct timestamps of
the earliest rows, not necessarily the earliest one), while the
single-vault calculator does return the single earliest valid reading. -/
theorem claim_C7_earliest_fallback (lf ef lv : List Snap) (e0 : Snap) (ev : List Snap)
    (hval : 0 < e0.sharePriceE18)
    (_hmin : ∀ p ∈ e0 :: ev, e0.timestamp ≤ p.timestamp) :
    (fetchAprDataPure lf [] ef).historical = averageAtMostRecentTimestamp ef ∧
    (fetchAprDataForVaultPure lv [] (e0 :: ev)).historical =
      some ⟨e0.timestamp, e0.sharePriceE18 / 10 ^ 18⟩ := by
  constructor
  · simp [fetchAprDataPure, factoryHistoricalSel, aamrt_nil]
  · have hp : toPoint (e0 :: ev) = some ⟨e0.timestamp, e0.sharePriceE18 / 10 ^ 18⟩ := by
      simp [toPoint, ne_of_gt hval]
    simp [fetchAprDataForVaultPure, vaultHistoricalSel, toPoint, hp, ne_of_gt hval]

/-- Witness for the amended C7 at a concrete input. -/
theorem claim_C7_witness :
    (0 : ℚ) < (⟨10, 1000000000000000000⟩ : Snap).sharePriceE18 ∧
    (∀ p ∈ (⟨10, 1000000000000000000⟩ : Snap) ::
        ([⟨20, 2000000000000000000⟩] : List Snap),
      (⟨10, 1000000000000000000⟩ : Snap).timestamp ≤ p.timestamp) ∧
    ((fetchAprDataPure [] [] ([⟨7, 3000000000000000000⟩] : List Snap)).historical =
        averageAtMostRecentTimestamp ([⟨7, 3000000000000000000⟩] : List Snap) ∧
     (fetchAprDataForVaultPure [] [] ((⟨10, 1000000000000000000⟩ : Snap) ::
        ([⟨20, 2000000000000000000⟩] : List Snap))).historical =
        some ⟨(⟨10, 1000000000000000000⟩ : Snap).timestamp,
          (⟨10, 1000000000000000000⟩ : Snap).sharePriceE18 / 10 ^ 18⟩) :=
  ⟨by norm_num, by norm_num,
   claim_C7_earliest_fallback [] [⟨7, 3000000000000000000⟩] [] ⟨10, 1000000000000000000⟩
     [⟨20, 2000000000000000000⟩] (by norm_num) (by norm_num)⟩

theorem decValue_foldl (ds : List Nat) :
    ∀ a : Nat, ds.foldl (fun acc d => 10 * acc + d) a =
      a * 10 ^ ds.length + Nat.ofDigits 10 ds.reverse := by
  induction ds with
  | nil => intro a; simp [Nat.ofDigits]
  | cons d t ih =>
    intro a
    rw [List.foldl_cons, ih]
    simp [List.reverse_cons, Nat.ofDigits_append, Nat.ofDigits]
    ring

theorem decValue_eq_ofDigits (ds : List Nat) :
    decValue ds = Nat.ofDigits 10 ds.reverse := by
  have := decValue_foldl ds 0
  simpa [decValue] using this

theorem decValue_natDecDigits (n : Nat) : decValue (natDecDigits n) = n := by
  rw [natDecDigits, decValue_eq_ofDigits, List.reverse_reverse, Nat.ofDigits_digits]

/-- C10: the normalized claimData.claimableAmount is the exact
arbitrary-precision integer difference amount - claimed, rendered in
decimal: the integer denoted by the rendered string equals the difference
of the integers denoted by the two input digit strings, for all inputs,
with no rounding of any kind. -/
theorem claim_C10_claimable_exact (amount claimed : List Nat) :
    signedValue (claimableAmountOf amount claimed) =
      (decValue amount : ℤ) - (decValue claimed : ℤ) := by
  simp only [claimableAmountOf]
  split
  · rename_i hd
    show -(decValue (natDecDigits ((decValue amount : ℤ) - decValue claimed).natAbs) : ℤ) =
      (decValue amount : ℤ) - decValue claimed
    rw [decValue_natDecDigits]
    omega
  · rename_i hd
    show (decValue (natDecDigits ((decValue amount : ℤ) - decValue claimed).toNat) : ℤ) =
      (decValue amount : ℤ) - decValue claimed
    rw [decValue_natDecDigits]
    omega

theorem roundToDouble_exact_below (n : Nat) (h : n < 2 ^ 53) : roundToDouble n = n := by
  have he : n.size - 53 = 0 := by
    have := Nat.size_le.mpr h
    omega
  simp only [roundToDouble, he]
  norm_num [Nat.mod_one, Nat.div_one]

/-- C9 amended: the aggregators parse the decimal-string numeric fields
with native floating-point parsing (parseFloat and parseInt), which equals
the exact denoted integer only below 2 ^ 53; within that range the parsed
value is exact. -/
theorem claim_C9_parse_exact_below (ds : List Nat) (h : decValue ds < 2 ^ 53) :
    jsParseNumber ds = decValue ds := by
  rw [jsParseNumber, roundToDouble_exact_below _ h]

/-- Witness for the amended C9: the three-digit string 123 parses exactly. -/
theorem claim_C9_witness :
    decValue [1, 2, 3] < 2 ^ 53 ∧ jsParseNumber [1, 2, 3] = decValue [1, 2, 3] :=
  ⟨by norm_num [decValue], claim_C9_parse_exact_below [1, 2, 3] (by norm_num [decValue])⟩

/-- Counterexample to C9: the decimal digit string of 2 ^ 53 + 1 denotes
9007199254740993, but the native parse used by the aggregators rounds it
to the even neighbour 9007199254740992, so the parsed value is not the
exact integer denoted by the string. -/
theorem claim_C9_counterexample :
    decValue [9, 0, 0, 7, 1, 9, 9, 2, 5, 4, 7, 4, 0, 9, 9, 3] = 9007199254740993 ∧
    jsParseNumber [9, 0, 0, 7, 1, 9, 9, 2, 5, 4, 7, 4, 0, 9, 9, 3] = 9007199254740992 ∧
    jsParseNumber [9, 0, 0, 7, 1, 9, 9, 2, 5, 4, 7, 4, 0, 9, 9, 3] ≠
      decValue [9, 0, 0, 7, 1, 9, 9, 2, 5, 4, 7, 4, 0, 9, 9, 3] := by
  have hdec : decValue [9, 0, 0, 7, 1, 9, 9, 2, 5, 4, 7, 4, 0, 9, 9, 3] =
      9007199254740993 := by
    norm_num [decValue]
  have hsize : (9007199254740993 : Nat).size = 54 := by
    have h1 : (9007199254740993 : Nat).size ≤ 54 := Nat.size_le.mpr (by norm_num)
    have h2 : 53 < (9007199254740993 : Nat).size := Nat.lt_size.mpr (by norm_num)
    omega
  have hround : roundToDouble 9007199254740993 = 9007199254740992 := by
    simp only [roundToDouble, hsize]
    norm_num
  refine ⟨hdec, ?_, ?_⟩
  · rw [jsParseNumber, hdec, hround]
  · rw [jsParseNumber, hdec, hround]
    norm_num

theorem foldl_add_map {α : Type} (f : α → ℚ) (xs : List α) :
    ∀ b : ℚ, xs.foldl (fun s p => s + f p) b = b + (xs.map f).sum := by
  induction xs with
  | nil => intro b; simp
  | cons x xs ih =>
    intro b
    rw [List.foldl_cons, ih]
    simp [List.sum_cons]
    ring

theorem init_le_foldl_max (rows : List Obs) :
    ∀ b : Nat, b ≤ rows.foldl (fun m p => max m p.timestamp) b := by
  induction rows with
  | nil => intro b; exact Nat.le_refl b
  | cons q rows ih =>
    intro b
    exact le_trans (Nat.le_max_left b q.timestamp) (ih (max b q.timestamp))

theorem mem_le_foldl_max (rows : List Obs) :
    ∀ (b : Nat) (p : Obs), p ∈ rows →
      p.timestamp ≤ rows.foldl (fun m p => max m p.timestamp) b := by
  induction rows with
  | nil => intro b p hp; cases hp
  | cons q rows ih =>
    intro b p hp
    rw [List.foldl_cons]
    rcases List.mem_cons.mp hp with rfl | hmem
    · exact le_trans (Nat.le_max_right b p.timestamp) (init_le_foldl_max rows _)
    · exact ih _ p hmem

theorem le_maxTs (rows : List Obs) (p : Obs) (hp : p ∈ rows) :
    p.timestamp ≤ maxTs rows :=
  mem_le_foldl_max rows 0 p hp

theorem foldl_max_cases (rows : List Obs) :
    ∀ b : Nat, rows.foldl (fun m p => max m p.timestamp) b = b ∨
      ∃ p ∈ rows, rows.foldl (fun m p => max m p.timestamp) b = p.timestamp := by
  induction rows with
  | nil => intro b; exact Or.inl rfl
  | cons q rows ih =>
    intro b
    rw [List.foldl_cons]
    rcases ih (max b q.timestamp) with h | ⟨p, hp, h⟩
    · rw [h]
      rcases max_choice b q.timestamp with hm | hm
      · exact Or.inl hm
      · exact Or.inr ⟨q, List.mem_cons_self q rows, hm⟩
    · exact Or.inr ⟨p, List.mem_cons_of_mem q hp, h⟩

theorem maxTs_mem (rows : List Obs) (h : rows ≠ []) :
    ∃ p ∈ rows, p.timestamp = maxTs rows := by
  rcases foldl_max_cases rows 0 with h0 | ⟨p, hp, hps⟩
  · cases rows with
    | nil => exact absurd rfl h
    | cons q rest =>
      refine ⟨q, List.mem_cons_self q rest, ?_⟩
      have h1 := le_maxTs (q :: rest) q (List.mem_cons_self q rest)
      have h2 : maxTs (q :: rest) = 0 := h0
      omega
  · exact ⟨p, hp, hps.symm⟩

/-- Counterexample to C8: one zero-price row at the maximal timestamp 20
and one valid row at timestamp 10: the filtered feed is nonempty (its
maximal timestamp is 10), yet fetchNav returns null because the maximal
timestamp is computed over the whole unfiltered feed. -/
theorem claim_C8_counterexample :
    fetchNavPure ([⟨20, 5, 0⟩, ⟨10, 3, 1000000000000000000⟩] : List Obs) = none ∧
    (([⟨20, 5, 0⟩, ⟨10, 3, 1000000000000000000⟩] : List Obs).filter
      fun p => decide (0 < p.sharePriceE18)) = [⟨10, 3, 1000000000000000000⟩] ∧
    fetchNavPure ([⟨20, 5, 0⟩, ⟨10, 3, 1000000000000000000⟩] : List Obs) ≠
      some ⟨10, 3 / 1000000, 1⟩ := by
  have h : fetchNavPure ([⟨20, 5, 0⟩, ⟨10, 3, 1000000000000000000⟩] : List Obs) = none := by
    norm_num [fetchNavPure, maxTs]
  refine ⟨h, by norm_num, by rw [h]; simp⟩

/-- C8 amended: fetchNav returns the maximal timestamp of the whole input
feed (invalid rows included), with tvl summed and sharePrice averaged over
exactly the valid rows at that timestamp; it returns null exactly when the
feed is empty or when no valid row sits at that overall-maximal timestamp,
even if valid rows exist at earlier timestamps. -/
theorem claim_C8_nav_latest_snapshot (rows : List Obs) :
    (fetchNavPure rows = none ↔
      rows = [] ∨ ∀ p ∈ rows, p.timestamp = maxTs rows → ¬0 < p.sharePriceE18) ∧
    ∀ nav : NavData, fetchNavPure rows = some nav →
      nav.timestamp = maxTs rows ∧
      (∀ p ∈ rows, p.timestamp ≤ nav.timestamp) ∧
      (∃ p ∈ rows, p.timestamp = nav.timestamp) ∧
      nav.totalTvl = ((rows.filter fun p =>
        decide (p.timestamp = maxTs rows ∧ 0 < p.sharePriceE18)).map
          fun p => p.tvl / 10 ^ 6).sum ∧
      nav.averageSharePrice = ((rows.filter fun p =>
        decide (p.timestamp = maxTs rows ∧ 0 < p.sharePriceE18)).map
          fun p => p.sharePriceE18 / 10 ^ 18).sum
        / ((rows.filter fun p =>
            decide (p.timestamp = maxTs rows ∧ 0 < p.sharePriceE18)).length : ℚ) := by
  constructor
  · constructor
    · intro hnone
      by_cases h0 : rows.length = 0
      · exact Or.inl (List.length_eq_zero.mp h0)
      · refine Or.inr ?_
        by_cases h1 : (rows.filter fun p =>
            decide (p.timestamp = maxTs rows ∧ 0 < p.sharePriceE18)).length = 0
        · intro p hp hmax
          have hfe := List.length_eq_zero.mp h1
          have hnp := List.filter_eq_nil_iff.mp hfe p hp
          simp only [decide_eq_true_eq, not_and] at hnp
          exact hnp hmax
        · exfalso
          simp only [fetchNavPure] at hnone
          rw [if_neg h0, if_neg h1] at hnone
          exact Option.some_ne_none _ hnone
    · rintro (rfl | hall)
      · rfl
      · simp only [fetchNavPure]
        by_cases h0 : rows.length = 0
        · rw [if_pos h0]
        · rw [if_neg h0]
          have h1 : (rows.filter fun p =>
              decide (p.timestamp = maxTs rows ∧ 0 < p.sharePriceE18)) = [] := by
            refine List.filter_eq_nil_iff.mpr fun p hp => ?_
            simp only [decide_eq_true_eq, not_and]
            exact hall p hp
          rw [if_pos (by rw [h1]; rfl)]
  · intro nav hnav
    simp only [fetchNavPure] at hnav
    by_cases h0 : rows.length = 0
    · rw [if_pos h0] at hnav
      exact absurd hnav (by simp)
    · rw [if_neg h0] at hnav
      by_cases h1 : (rows.filter fun p =>
          decide (p.timestamp = maxTs rows ∧ 0 < p.sharePriceE18)).length = 0
      · rw [if_pos h1] at hnav
        exact absurd hnav (by simp)
      · rw [if_neg h1] at hnav
        injection hnav with h2
        subst h2
        refine ⟨rfl, ?_, ?_, ?_, ?_⟩
        · exact fun p hp => le_maxTs rows p hp
        · exact maxTs_mem rows fun hnil => h0 (List.length_eq_zero.mpr hnil)
        · exact (foldl_add_map (fun p : Obs => p.tvl / 10 ^ 6) _ 0).trans (zero_add _)
        · have hs := (foldl_add_map (fun p : Obs => p.sharePriceE18 / 10 ^ 18)
            (rows.filter fun p =>
              decide (p.timestamp = maxTs rows ∧ 0 < p.sharePriceE18)) 0).trans
            (zero_add _)
          exact congrArg (fun x : ℚ => x / ((rows.filter fun p =>
            decide (p.timestamp = maxTs rows ∧ 0 < p.sharePriceE18)).length : ℚ)) hs

/-- Witness for the amended C8 at a concrete feed: a zero-price row at the
maximal timestamp 20 and a valid row at 10 make the aggregate null. -/
theorem claim_C8_witness :
    (fetchNavPure ([⟨20, 5, 0⟩, ⟨10, 3, 2000000000000000000⟩] : List Obs) = none ↔
      ([⟨20, 5, 0⟩, ⟨10, 3, 2000000000000000000⟩] : List Obs) = [] ∨
      ∀ p ∈ ([⟨20, 5, 0⟩, ⟨10, 3, 2000000000000000000⟩] : List Obs),
        p.timestamp = maxTs ([⟨20, 5, 0⟩, ⟨10, 3, 2000000000000000000⟩] : List Obs) →
          ¬0 < p.sharePriceE18) ∧
    ∀ nav : NavData,
      fetchNavPure ([⟨20, 5, 0⟩, ⟨10, 3, 2000000000000000000⟩] : List Obs) = some nav →
      nav.timestamp = maxTs ([⟨20, 5, 0⟩, ⟨10, 3, 2000000000000000000⟩] : List Obs) ∧
      (∀ p ∈ ([⟨20, 5, 0⟩, ⟨10, 3, 2000000000000000000⟩] : List Obs),
        p.timestamp ≤ nav.timestamp) ∧
      (∃ p ∈ ([⟨20, 5, 0⟩, ⟨10, 3, 2000000000000000000⟩] : List Obs),
        p.timestamp = nav.timestamp) ∧
      nav.totalTvl = ((([⟨20, 5, 0⟩, ⟨10, 3, 2000000000000000000⟩] : List Obs).filter
        fun p => decide (p.timestamp =
          maxTs ([⟨20, 5, 0⟩, ⟨10, 3, 2000000000000000000⟩] : List Obs) ∧
          0 < p.sharePriceE18)).map fun p => p.tvl / 10 ^ 6).sum ∧
      nav.averageSharePrice =
        ((([⟨20, 5, 0⟩, ⟨10, 3, 2000000000000000000⟩] : List Obs).filter
          fun p => decide (p.timestamp =
            maxTs ([⟨20, 5, 0⟩, ⟨10, 3, 2000000000000000000⟩] : List Obs) ∧
            0 < p.sharePriceE18)).map fun p => p.sharePriceE18 / 10 ^ 18).sum
          / ((([⟨20, 5, 0⟩, ⟨10, 3, 2000000000000000000⟩] : List Obs).filter
            fun p => decide (p.timestamp =
              maxTs ([⟨20, 5, 0⟩, ⟨10, 3, 2000000000000000000⟩] : List Obs) ∧
              0 < p.sharePriceE18)).length : ℚ) :=
  claim_C8_nav_latest_snapshot [⟨20, 5, 0⟩, ⟨10, 3, 2000000000000000000⟩]

theorem lookup_length_eq_vaultCount (points : List Snap) (t : Nat) :
    ((alookup t (snapGroups points)).getD []).length = vaultCount points t := by
  rcases hl : alookup t (snapGroups points) with _ | prices
  · have hnotin : t ∉ (snapGroups points).map Prod.fst :=
      (alookup_eq_none_iff t (snapGroups points)).mp hl
    rw [snapGroups, mem_keys_upsertAll] at hnotin
    simp only [List.map_nil, List.not_mem_nil, false_or, List.mem_map, not_exists,
      not_and] at hnotin
    have hfe : ((validSnaps points).filter fun p => decide (p.timestamp = t)) = [] := by
      refine List.filter_eq_nil_iff.mpr fun p hp => ?_
      simp only [decide_eq_true_eq]
      exact hnotin p hp
    simp [vaultCount, hfe]
  · have hps := alookup_snapGroups points t prices hl
    simp [vaultCount, hps]

theorem bestScan_spec (cnt : Nat → Nat) :
    ∀ (xs : List Nat) (b : Nat × Nat),
      (b.1 :: xs).Pairwise (fun a c => c < a) → b.2 = cnt b.1 →
      (xs.foldl (fun b t => if b.2 < cnt t then (t, cnt t) else b) b).2 =
          cnt (xs.foldl (fun b t => if b.2 < cnt t then (t, cnt t) else b) b).1 ∧
        (xs.foldl (fun b t => if b.2 < cnt t then (t, cnt t) else b) b).1 ∈ b.1 :: xs ∧
        ∀ u ∈ b.1 :: xs,
          cnt u ≤ (xs.foldl (fun b t => if b.2 < cnt t then (t, cnt t) else b) b).2 ∧
          (cnt u = (xs.foldl (fun b t => if b.2 < cnt t then (t, cnt t) else b) b).2 →
            u ≤ (xs.foldl (fun b t => if b.2 < cnt t then (t, cnt t) else b) b).1) := by
  intro xs
  induction xs with
  | nil =>
    intro b _ hb
    refine ⟨hb, List.mem_cons_self _ _, ?_⟩
    intro u hu
    have hu1 : u = b.1 := by simpa using hu
    rw [hu1]
    exact ⟨le_of_eq hb.symm, fun _ => le_refl _⟩
  | cons t xs ih =>
    intro b hpw hb
    rw [List.foldl_cons]
    by_cases hc : b.2 < cnt t
    · rw [if_pos hc]
      have hpw2 : ((t, cnt t).1 :: xs).Pairwise fun a c => c < a :=
        hpw.sublist (List.sublist_cons_self b.1 (t :: xs))
      obtain ⟨h1, h2, h3⟩ := ih (t, cnt t) hpw2 rfl
      refine ⟨h1, List.mem_cons_of_mem _ h2, ?_⟩
      intro u hu
      rcases List.mem_cons.mp hu with h | hu2
      · rw [h]
        obtain ⟨hct, _⟩ := h3 t (List.mem_cons_self _ _)
        exact ⟨by omega, fun hequ => by omega⟩
      · exact h3 u hu2
    · rw [if_neg hc]
      have hpw2 : (b.1 :: xs).Pairwise fun a c => c < a :=
        hpw.sublist (List.Sublist.cons₂ b.1 (List.sublist_cons_self t xs))
      obtain ⟨h1, h2, h3⟩ := ih b hpw2 hb
      refine ⟨h1, ?_, ?_⟩
      · exact List.mem_cons.mpr (Or.elim (List.mem_cons.mp h2) Or.inl
          fun hx => Or.inr (List.mem_cons_of_mem t hx))
      · intro u hu
        rcases List.mem_cons.mp hu with h | hu2
        · rw [h]
          exact h3 b.1 (List.mem_cons_self _ _)
        · rcases List.mem_cons.mp hu2 with h | hu3
          · rw [h]
            obtain ⟨hcb1, hcb2⟩ := h3 b.1 (List.mem_cons_self _ _)
            have hct : cnt t ≤ b.2 := not_lt.mp hc
            refine ⟨by omega, ?_⟩
            intro hequ
            have htb : t < b.1 := (List.pairwise_cons.mp hpw).1 t (List.mem_cons_self _ _)
            have hbeq := hcb2 (by omega)
            exact le_trans (le_of_lt htb) hbeq
          · exact h3 u (List.mem_cons_of_mem _ hu3)

theorem cntL_eq_vaultCount (points : List Snap) (t : Nat) :
    cntL points t = vaultCount points t :=
  lookup_length_eq_vaultCount points t

theorem aamrt_eq (points : List Snap) (t0 : Nat) (rest : List Nat)
    (hlen : ¬(validSnaps points).length = 0)
    (hsk : sortedKeysDesc (snapGroups points) = t0 :: rest) :
    averageAtMostRecentTimestamp points =
      some ⟨(bestOf points t0 rest).1,
        ((alookup (bestOf points t0 rest).1 (snapGroups points)).getD []).foldl
          (fun s p => s + p) 0
          / ((((alookup (bestOf points t0 rest).1 (snapGroups points)).getD []).length : ℕ) :
            ℚ)⟩ := by
  simp only [averageAtMostRecentTimestamp]
  rw [if_neg hlen, hsk]
  rfl

/-- C6: on any input with at least one valid snapshot, the factory-wide
representative-point selector returns a timestamp of the window of the
most recent up-to-5 distinct valid timestamps that maximizes the number of
contributing readings over that window, with ties resolved toward the
newest timestamp, paired with the arithmetic mean of its readings. -/
theorem claim_C6_most_complete_snapshot (points : List Snap)
    (h : validSnaps points ≠ []) :
    ∃ t, averageAtMostRecentTimestamp points = some ⟨t, meanPriceAt points t⟩ ∧
      t ∈ recentTimestampWindow points ∧
      ∀ u ∈ recentTimestampWindow points,
        vaultCount points u ≤ vaultCount points t ∧
        (vaultCount points u = vaultCount points t → u ≤ t) := by
  have hlen : ¬(validSnaps points).length = 0 := fun h0 => h (List.length_eq_zero.mp h0)
  rcases hsk : sortedKeysDesc (snapGroups points) with _ | ⟨t0, rest⟩
  · exfalso
    obtain ⟨p, hp⟩ := List.exists_mem_of_ne_nil _ h
    have hkeys : p.timestamp ∈ (snapGroups points).map Prod.fst := by
      rw [snapGroups, mem_keys_upsertAll]
      exact Or.inr (List.mem_map_of_mem _ hp)
    have hmem := (sortedKeysDesc_perm (snapGroups points)).mem_iff.mpr hkeys
    rw [hsk] at hmem
    cases hmem
  · have hwin : recentTimestampWindow points = t0 :: rest.take 4 := by
      rw [recentTimestampWindow, hsk]
      rfl
    have hnodup : (sortedKeysDesc (snapGroups points)).Nodup :=
      (sortedKeysDesc_perm (snapGroups points)).nodup_iff.mpr
        (by rw [snapGroups]; exact nodup_keys_upsertAll _ _ _ _ [] (by simp))
    have hgt : (sortedKeysDesc (snapGroups points)).Pairwise fun a c => c < a :=
      pairwise_gt_of_sorted_ge_nodup (sortedKeysDesc_sorted (snapGroups points)) hnodup
    rw [hsk] at hgt
    have hgt5 : (t0 :: rest.take 4).Pairwise fun a c => c < a :=
      hgt.sublist (List.Sublist.cons₂ t0 (List.take_sublist 4 rest))
    obtain ⟨hr2, hrmem, hropt⟩ :=
      bestScan_spec (cntL points) (rest.take 4) (t0, cntL points t0) hgt5 rfl
    have hbd : (rest.take 4).foldl
        (fun b t => if b.2 < cntL points t then (t, cntL points t) else b)
        (t0, cntL points t0) = bestOf points t0 rest := rfl
    rw [hbd] at hr2 hrmem hropt
    have hrkey : (bestOf points t0 rest).1 ∈ (snapGroups points).map Prod.fst := by
      have hms : (bestOf points t0 rest).1 ∈ sortedKeysDesc (snapGroups points) := by
        rw [hsk]
        exact (List.Sublist.cons₂ t0 (List.take_sublist 4 rest)).subset hrmem
      exact (sortedKeysDesc_perm (snapGroups points)).mem_iff.mp hms
    rcases hlp : alookup (bestOf points t0 rest).1 (snapGroups points) with _ | prices
    · exact absurd hrkey ((alookup_eq_none_iff _ _).mp hlp)
    · have hps := alookup_snapGroups points (bestOf points t0 rest).1 prices hlp
      refine ⟨(bestOf points t0 rest).1, ?_, ?_, ?_⟩
      · rw [aamrt_eq points t0 rest hlen hsk, hlp]
        simp only [Option.getD_some, Option.some.injEq, SnapPoint.mk.injEq, true_and]
        have hsum : prices.foldl (fun s p => s + p) 0 = prices.sum := by
          have hf := foldl_add_map (fun q : ℚ => q) prices 0
          simpa using hf
        rw [hsum, meanPriceAt, hps, vaultCount]
        simp [List.length_map]
      · rw [hwin]
        exact hrmem
      · intro u hu
        rw [hwin] at hu
        obtain ⟨hle, htie⟩ := hropt u hu
        rw [cntL_eq_vaultCount] at hr2 hle htie
        constructor
        · omega
        · intro hequ
          apply htie
          omega

/-- Witness for C6 at the concrete five-timestamp example with
contributing counts 3, 5, 2, 5 and 1 newest to oldest: the newer of the
two timestamps tied at count 5, timestamp 40, is selected, with the mean
of its readings. -/
theorem claim_C6_witness :
    validSnaps fiveTimestampFeed ≠ [] ∧
    averageAtMostRecentTimestamp fiveTimestampFeed = some ⟨40, 1⟩ ∧
    (∃ t, averageAtMostRecentTimestamp fiveTimestampFeed =
        some ⟨t, meanPriceAt fiveTimestampFeed t⟩ ∧
      t ∈ recentTimestampWindow fiveTimestampFeed ∧
      ∀ u ∈ recentTimestampWindow fiveTimestampFeed,
        vaultCount fiveTimestampFeed u ≤ vaultCount fiveTimestampFeed t ∧
        (vaultCount fiveTimestampFeed u = vaultCount fiveTimestampFeed t → u ≤ t)) :=
  ⟨by norm_num [validSnaps, fiveTimestampFeed]; exact List.cons_ne_nil _ _,
   by norm_num [averageAtMostRecentTimestamp, validSnaps, snapGroups, upsertAll, insertWith,
     alookup, sortedKeysDesc, List.insertionSort, List.orderedInsert, priceStart, priceUpd,
     fiveTimestampFeed],
   claim_C6_most_complete_snapshot _
     (by norm_num [validSnaps, fiveTimestampFeed]; exact List.cons_ne_nil _ _)⟩

theorem filterMap_ite_eq_filter_map {γ : Type} (l : List Nat) (c : Nat → Prop)
    [DecidablePred c] (f : Nat → γ) :
    (l.filterMap fun i => if c i then none else some (f i)) =
      (l.filter fun i => decide ¬c i).map f := by
  induction l with
  | nil => rfl
  | cons i l ih =>
    by_cases hc : c i
    · simp [List.filterMap_cons, List.filter_cons, hc, ih]
    · simp [List.filterMap_cons, List.filter_cons, hc, ih]

theorem filterMap_lookup_eq_map {γ : Type} (m : List (Nat × β)) (g : Nat → β → γ) (d : β) :
    ∀ l : List Nat, (∀ t ∈ l, t ∈ m.map Prod.fst) →
      (l.filterMap fun t => (alookup t m).map (g t)) =
        l.map fun t => g t ((alookup t m).getD d) := by
  intro l
  induction l with
  | nil => intro _; rfl
  | cons t l ih =>
    intro hall
    have hsome := (alookup_isSome_iff t m).mpr (hall t (List.mem_cons_self _ _))
    rcases hl : alookup t m with _ | a
    · rw [hl] at hsome; simp at hsome
    · simp only [List.filterMap_cons, List.map_cons, hl, Option.map_some', Option.getD_some]
      rw [ih fun u hu => hall u (List.mem_cons_of_mem _ hu)]

theorem filterMap_lookup_map_fst {γ : Type} (m : List (Nat × β)) (g : Nat → β → γ)
    (ts : γ → Nat) (hts : ∀ t a, ts (g t a) = t) :
    ∀ l : List Nat, (∀ t ∈ l, t ∈ m.map Prod.fst) →
      ((l.filterMap fun t => (alookup t m).map (g t)).map ts) = l := by
  intro l
  induction l with
  | nil => intro _; rfl
  | cons t l ih =>
    intro hall
    have hsome := (alookup_isSome_iff t m).mpr (hall t (List.mem_cons_self _ _))
    rcases hl : alookup t m with _ | a
    · rw [hl] at hsome; simp at hsome
    · simp only [List.filterMap_cons, hl, Option.map_some', List.map_cons, hts]
      rw [ih fun u hu => hall u (List.mem_cons_of_mem _ hu)]

theorem aggregated_map_timestamp (pts : List Obs) :
    (aggregatedOf pts).map (fun q => q.timestamp) =
      sortedKeysAsc (groupedByTimestamp pts) := by
  rw [aggregatedOf]
  exact filterMap_lookup_map_fst (groupedByTimestamp pts)
    (fun t a => Point.mk t (a.sharePriceSum / (a.count : ℚ)) a.tvlSum)
    (fun q => q.timestamp) (fun _ _ => rfl) _
    fun t ht => (sortedKeysAsc_perm _).mem_iff.mp ht

theorem keys_grouped_nodup (pts : List Obs) :
    ((groupedByTimestamp pts).map Prod.fst).Nodup := by
  rw [groupedByTimestamp]
  exact nodup_keys_upsertAll _ _ _ _ [] (by simp)

theorem aggregated_ts_pairwise_lt (pts : List Obs) :
    ((aggregatedOf pts).map fun q => q.timestamp).Pairwise fun a b => a < b := by
  rw [aggregated_map_timestamp]
  exact pairwise_lt_of_sorted_le_nodup (sortedKeysAsc_sorted _)
    ((sortedKeysAsc_perm _).nodup_iff.mpr (keys_grouped_nodup pts))

theorem dataStart_lt_dataEnd (l : List Point)
    (hs : (l.map fun q => q.timestamp).Pairwise fun a b => a < b)
    (h2 : 2 ≤ l.length) : dataStartOf l < dataEndOf l := by
  cases l with
  | nil => simp at h2
  | cons a rest =>
    cases rest with
    | nil => simp at h2
    | cons b rest2 =>
      have hmem := List.getLast_mem (l := b :: rest2) (List.cons_ne_nil _ _)
      have hlt := (List.pairwise_cons.mp hs).1
        ((b :: rest2).getLast (List.cons_ne_nil _ _)).timestamp
        (List.mem_map_of_mem _ hmem)
      have h1 : dataStartOf (a :: b :: rest2) = a.timestamp := rfl
      have h2e : dataEndOf (a :: b :: rest2) =
          ((b :: rest2).getLast (List.cons_ne_nil _ _)).timestamp := by
        rw [dataEndOf, List.getLast?_eq_getLast _ (List.cons_ne_nil _ _), List.getLast_cons]
        rfl
      rw [h1, h2e]
      exact hlt

theorem bucketIdx_lt_200 (start w : Nat) (p : Point) : bucketIdx start w p < 200 := by
  rw [bucketIdx, TARGET_CHART_POINTS]
  omega

theorem claimMembers_eq_filter_bucketIdx (aggd : List Point) (start w i : Nat) :
    claimMembers aggd start w i =
      aggd.filter fun p => decide (bucketIdx start w p = i) := rfl

theorem sortedKeys_buckets_eq_range_filter (aggd : List Point) (start w : Nat) :
    sortedKeysAsc (bucketsOf start w aggd) =
      (List.range 200).filter fun i =>
        decide ¬(claimMembers aggd start w i).length = 0 := by
  have h1s : (sortedKeysAsc (bucketsOf start w aggd)).Sorted fun a b => a ≤ b :=
    sortedKeysAsc_sorted _
  have h1n : (sortedKeysAsc (bucketsOf start w aggd)).Nodup :=
    (sortedKeysAsc_perm _).nodup_iff.mpr
      (by rw [bucketsOf]; exact nodup_keys_upsertAll _ _ _ _ [] (by simp))
  have h2n : ((List.range 200).filter fun i =>
      decide ¬(claimMembers aggd start w i).length = 0).Nodup :=
    (List.nodup_range 200).filter _
  have h2s : ((List.range 200).filter fun i =>
      decide ¬(claimMembers aggd start w i).length = 0).Sorted fun a b => a ≤ b :=
    ((List.pairwise_lt_range 200).imp fun hab => Nat.le_of_lt hab).filter _
  refine List.eq_of_perm_of_sorted ?_ h1s h2s
  rw [List.perm_ext_iff_of_nodup h1n h2n]
  intro i
  rw [(sortedKeysAsc_perm _).mem_iff, bucketsOf, mem_keys_upsertAll]
  simp only [List.map_nil, List.not_mem_nil, false_or]
  rw [List.mem_filter, List.mem_range]
  constructor
  · intro hmem
    rw [List.mem_map] at hmem
    obtain ⟨p, hp, hpi⟩ := hmem
    refine ⟨by rw [← hpi]; exact bucketIdx_lt_200 start w p, ?_⟩
    simp only [decide_eq_true_eq]
    intro hlen0
    have hemp : claimMembers aggd start w i = [] := List.length_eq_zero.mp hlen0
    rw [claimMembers_eq_filter_bucketIdx] at hemp
    have := List.filter_eq_nil_iff.mp hemp p hp
    simp [hpi] at this
  · rintro ⟨_, hne⟩
    simp only [decide_eq_true_eq] at hne
    have hnil : claimMembers aggd start w i ≠ [] := fun hh => hne (by rw [hh]; rfl)
    obtain ⟨p, hp⟩ := List.exists_mem_of_ne_nil _ hnil
    rw [claimMembers_eq_filter_bucketIdx, List.mem_filter] at hp
    rw [List.mem_map]
    exact ⟨p, hp.1, by simpa using hp.2⟩

theorem downsampled_eq_claimDownsample (aggd : List Point) (start w : Nat) :
    downsampled start w aggd = claimDownsample aggd start w := by
  rw [downsampled, claimDownsample]
  rw [filterMap_ite_eq_filter_map]
  rw [filterMap_lookup_eq_map (bucketsOf start w aggd) _ (⟨0, 0, 0⟩ : BucketAgg) _
    fun t ht => (sortedKeysAsc_perm _).mem_iff.mp ht]
  rw [sortedKeys_buckets_eq_range_filter aggd start w]
  apply List.map_congr_left
  intro i hi
  rw [List.mem_filter] at hi
  obtain ⟨_, hne⟩ := hi
  simp only [decide_eq_true_eq] at hne
  have hnil : claimMembers aggd start w i ≠ [] := fun hh => hne (by rw [hh]; rfl)
  obtain ⟨p, hp⟩ := List.exists_mem_of_ne_nil _ hnil
  have hpkey : i ∈ (bucketsOf start w aggd).map Prod.fst := by
    rw [bucketsOf, mem_keys_upsertAll]
    refine Or.inr ?_
    rw [claimMembers_eq_filter_bucketIdx, List.mem_filter] at hp
    rw [List.mem_map]
    exact ⟨p, hp.1, by simpa using hp.2⟩
  rcases hlk : alookup i (bucketsOf start w aggd) with _ | agg
  · exact absurd hpkey ((alookup_eq_none_iff _ _).mp hlk)
  · obtain ⟨hsp, htv, hcnt⟩ := alookup_bucketsOf start w aggd i agg hlk
    simp only [Option.getD_some, Point.mk.injEq]
    have hmem_eq := claimMembers_eq_filter_bucketIdx aggd start w i
    refine ⟨trivial, ?_, ?_⟩
    · rw [hsp, hcnt, hmem_eq]
    · rw [htv, hcnt, hmem_eq]

theorem claimDownsample_length_le (aggd : List Point) (start w : Nat) :
    (claimDownsample aggd start w).length ≤ 200 := by
  rw [claimDownsample, filterMap_ite_eq_filter_map, List.length_map]
  calc ((List.range 200).filter fun i =>
      decide ¬(claimMembers aggd start w i).length = 0).length
      ≤ (List.range 200).length := List.length_filter_le _ _
    _ = 200 := List.length_range 200

theorem claimDownsample_ts_pairwise (aggd : List Point) (start w : Nat) (hw : 1 ≤ w) :
    ((claimDownsample aggd start w).map fun q => q.timestamp).Pairwise
      fun a b => a < b := by
  rw [claimDownsample, filterMap_ite_eq_filter_map, List.map_map]
  have hbase : ((List.range 200).filter fun i =>
      decide ¬(claimMembers aggd start w i).length = 0).Pairwise fun a b => a < b :=
    (List.pairwise_lt_range 200).filter _
  refine List.Pairwise.map _ (fun i j hij => ?_) hbase
  show start + i * w + w / 2 < start + j * w + w / 2
  have h1 : (i + 1) * w ≤ j * w := Nat.mul_le_mul_right w (Nat.succ_le_of_lt hij)
  rw [Nat.add_mul, one_mul] at h1
  omega

/-- C3: whenever more than 200 grouped points remain, the history
aggregator downsamples over the actual observed span (last minus first
grouped timestamp), with width ceil(span / 200): its output equals the
specification downsampling (bucket floor((timestamp - start) / width)
clamped to index 199, per-bucket averages of sharePrice and tvl, one point
per non-empty bucket at bucketStart + width / 2, ascending), and in
consequence has at most 200 points with strictly ascending timestamps. -/
theorem claim_C3_downsampling (pts : List Obs)
    (h200 : TARGET_CHART_POINTS < (aggregatedOf pts).length) :
    fetchSharePriceHistoryPure pts =
      claimDownsample (aggregatedOf pts) (dataStartOf (aggregatedOf pts))
        ((dataEndOf (aggregatedOf pts) - dataStartOf (aggregatedOf pts) +
          (TARGET_CHART_POINTS - 1)) / TARGET_CHART_POINTS) ∧
    (fetchSharePriceHistoryPure pts).length ≤ 200 ∧
    ((fetchSharePriceHistoryPure pts).map fun q => q.timestamp).Pairwise
      fun a b => a < b := by
  have hlt : dataStartOf (aggregatedOf pts) < dataEndOf (aggregatedOf pts) :=
    dataStart_lt_dataEnd _ (aggregated_ts_pairwise_lt pts)
      (by rw [TARGET_CHART_POINTS] at h200; omega)
  have hne0 : ¬(aggregatedOf pts).length = 0 := by
    rw [TARGET_CHART_POINTS] at h200; omega
  have hnle : ¬(aggregatedOf pts).length ≤ TARGET_CHART_POINTS := by omega
  have hrange : ¬(dataEndOf (aggregatedOf pts) - dataStartOf (aggregatedOf pts) ≤ 0) := by
    omega
  have hfetch : fetchSharePriceHistoryPure pts =
      downsampled (dataStartOf (aggregatedOf pts))
        ((dataEndOf (aggregatedOf pts) - dataStartOf (aggregatedOf pts) +
          (TARGET_CHART_POINTS - 1)) / TARGET_CHART_POINTS) (aggregatedOf pts) := by
    simp only [fetchSharePriceHistoryPure]
    rw [if_neg hne0, if_neg hnle, if_neg hrange]
  have hw : 1 ≤ (dataEndOf (aggregatedOf pts) - dataStartOf (aggregatedOf pts) +
      (TARGET_CHART_POINTS - 1)) / TARGET_CHART_POINTS := by
    rw [TARGET_CHART_POINTS]
    rw [Nat.le_div_iff_mul_le (by norm_num)]
    omega
  refine ⟨?_, ?_, ?_⟩
  · rw [hfetch, downsampled_eq_claimDownsample]
  · rw [hfetch, downsampled_eq_claimDownsample]
    exact claimDownsample_length_le _ _ _
  · rw [hfetch, downsampled_eq_claimDownsample]
    exact claimDownsample_ts_pairwise _ _ _ hw

/-- Witness for C3 at a concrete input with 201 distinct valid timestamps,
which exceeds the 200-point target and triggers downsampling. -/
theorem claim_C3_witness :
    TARGET_CHART_POINTS < (aggregatedOf rangeFeed).length ∧
    (fetchSharePriceHistoryPure rangeFeed =
      claimDownsample (aggregatedOf rangeFeed) (dataStartOf (aggregatedOf rangeFeed))
        ((dataEndOf (aggregatedOf rangeFeed) - dataStartOf (aggregatedOf rangeFeed) +
          (TARGET_CHART_POINTS - 1)) / TARGET_CHART_POINTS) ∧
     (fetchSharePriceHistoryPure rangeFeed).length ≤ 200 ∧
     ((fetchSharePriceHistoryPure rangeFeed).map fun q => q.timestamp).Pairwise
       fun a b => a < b) := by
  have hval : validObs rangeFeed = rangeFeed := by
    refine List.filter_eq_self.mpr fun p hp => ?_
    rw [rangeFeed, List.mem_map] at hp
    obtain ⟨i, _, rfl⟩ := hp
    norm_num
  have hts : (rangeFeed.map fun p => p.timestamp) = List.range 201 := by
    rw [rangeFeed, List.map_map]
    exact List.map_id _
  have hcount : (distinctValidTimestamps rangeFeed).length = 201 := by
    rw [distinctValidTimestamps, hval, hts, (List.nodup_range 201).dedup,
      List.length_range]
  have h200 : TARGET_CHART_POINTS < (aggregatedOf rangeFeed).length := by
    rw [length_aggregatedOf, hcount, TARGET_CHART_POINTS]
    omega
  exact ⟨h200, claim_C3_downsampling rangeFeed h200⟩

end Kuru
